import Mathlib

/-!
Verification of the Talynix job matching-and-ranking pipeline.

The Python modules `filters.py`, `ranker.py` and the pipeline portion of
`streamlit_app.py` are embedded shallowly: dictionaries become structures,
floats become rationals, the sentence-transformer backend, the rapidfuzz
ratio and the date parser become explicit parameters (they are external
libraries), and the wall clock becomes an explicit input.  Missing or
`None` string fields are normalized to `""`, matching the `or ''` /
`.get(k, '')` reads the code performs everywhere before using them.
-/

namespace Talynix

/- ## Python string primitives -/

/-- Prefix test on character lists. -/
def isPfx : List Char → List Char → Bool
  | [], _ => true
  | _ :: _, [] => false
  | a :: as, b :: bs => a == b && isPfx as bs

/-- Contiguous-substring occurrence test on character lists. -/
def containsChars (pat : List Char) : List Char → Bool
  | [] => pat.isEmpty
  | c :: rest => isPfx pat (c :: rest) || containsChars pat rest

/-- Python `pat in hay` for strings (substring containment; `"" in s` is true). -/
def pyIn (pat hay : String) : Bool := containsChars pat.toList hay.toList

/-- Python `str.lower()` (ASCII case folding, the only case exercised here),
written over the character list so that it evaluates by kernel reduction. -/
def lower (s : String) : String := ⟨s.toList.map Char.toLower⟩

/-- Python `' '.join(xs)`. -/
def joinSp (xs : List String) : String := String.intercalate " " xs

/- ## Python numeric primitives -/

/-- Python `round(q)`: round half to even. -/
def pyRound (q : ℚ) : ℤ :=
  let f := ⌊q⌋
  let r := q - f
  if r < 1/2 then f else if 1/2 < r then f + 1 else if 2 ∣ f then f else f + 1

/-- Python `round(q, 2)`. -/
def round2 (q : ℚ) : ℚ := (pyRound (q * 100) : ℚ) / 100

/-- Python `int(q)`: truncation toward zero. -/
def pyTrunc (q : ℚ) : ℤ := if q < 0 then ⌈q⌉ else ⌊q⌋

/-- Python `max` over a list of naturals, `0` when empty. -/
def maxOr0 (l : List ℕ) : ℕ := l.foldl max 0

/-- Python `max(l + [0])` over rationals. -/
def maxQ0 (l : List ℚ) : ℚ := l.foldl max 0

/- ## The regex `(\d+)\s*(?:year|yr)` of `evaluate_job_match` -/

/-- Python `\s` whitespace classes. -/
def isWsChar (c : Char) : Bool :=
  c == ' ' || c == '\t' || c == '\n' || c == '\x0d' || c == '\x0c' || c == '\x0b'

/-- Numeric value of a digit run, as Python `int` on the captured group. -/
def natOfDigits (ds : List Char) : ℕ := ds.foldl (fun a c => a * 10 + (c.toNat - 48)) 0

/-- Scanner behind `findYearNums`, structurally recursive on an explicit
fuel so that it evaluates by kernel reduction.  Every step consumes at least
one character (a digit run is nonempty and the drops only shorten the list),
so fuel equal to the list length never runs out. -/
def findYearNumsAux : ℕ → List Char → List ℕ
  | 0, _ => []
  | _ + 1, [] => []
  | fuel + 1, c :: rest =>
    if c.isDigit then
      let run := (c :: rest).takeWhile Char.isDigit
      let afterWs := ((c :: rest).dropWhile Char.isDigit).dropWhile isWsChar
      if isPfx ['y', 'e', 'a', 'r'] afterWs then
        natOfDigits run :: findYearNumsAux fuel (afterWs.drop 4)
      else if isPfx ['y', 'r'] afterWs then
        natOfDigits run :: findYearNumsAux fuel (afterWs.drop 2)
      else
        findYearNumsAux fuel rest
    else
      findYearNumsAux fuel rest

/-- All matches of `re.findall(r'(\d+)\s*(?:year|yr)', text)` as numbers: a
maximal digit run matches when it is followed by optional whitespace and then
the literal `year` or `yr`; scanning resumes after the end of a match. -/
def findYearNums (l : List Char) : List ℕ := findYearNumsAux l.length l

/- ## Data model -/

/-- One scraped job posting.  `url` is the identity key; a missing or `None`
field is modelled as `""`, exactly how the code normalizes it before use. -/
structure Job where
  url : String := ""
  title : String := ""
  company : String := ""
  location : String := ""
  posting_date : String := ""
  work_type : String := ""
  requirements : String := ""
  description : String := ""
  deriving DecidableEq, Repr

/-- The candidate profile used by `filter_jobs` / `rank_jobs` (`user_prefs` +
resume fields read through `user_extractor.get_user_profile`). -/
structure Profile where
  skills : List String := []
  education : List String := []
  min_experience : ℤ := 0
  preferred_locations : List String := []
  company_preference : String := "Global > Indian"
  deriving DecidableEq, Repr

/-- The `user_preferences` sub-dictionary of `evaluate_job_match`'s input. -/
structure Prefs where
  preferred_titles : List String := []
  location : List String := []
  experience_years : ℤ := 0
  job_type : String := ""
  deriving DecidableEq, Repr

/-- The `user_input` dictionary of the `filter_and_rank_jobs` pipeline. -/
structure UserInput where
  resume : String := ""
  user_preferences : Prefs := {}
  deriving DecidableEq, Repr

/-- A posting enriched with `skill_match_pct` by `filter_skill_match`. -/
structure SJob where
  job : Job
  skill_match_pct : ℚ
  deriving DecidableEq, Repr

/-- The `score_breakdown` dictionary of `evaluate_job_match`. -/
structure Breakdown where
  skill_match : ℤ
  title_match : ℤ
  location_score : ℤ
  recency_score : ℤ
  company_score : ℤ
  deriving DecidableEq, Repr

/-- Result dictionary of `evaluate_job_match`. -/
inductive MatchResult where
  | ineligible (reason : String)
  | eligible (match_score : ℤ) (score_breakdown : Breakdown) (comments : String)
  deriving DecidableEq, Repr

/-- A posting merged with an eligible `evaluate_job_match` result
(`job.copy().update(result)`). -/
structure RJob where
  job : Job
  match_score : ℤ
  score_breakdown : Breakdown
  comments : String
  deriving DecidableEq, Repr

/-- A posting enriched with `relevance_score` by `compute_relevance_score`. -/
structure RankedJob where
  sjob : SJob
  relevance_score : ℚ
  deriving DecidableEq, Repr

/-- External collaborators: the lazily-initialized sentence-transformer
(`None` when loading failed), rapidfuzz `fuzz.partial_ratio`, the
`datetime.strptime('%B %d, %Y')` parser (`none` when it raises), and the
current time, all in days. -/
structure Ext where
  stModel : Option (String → String → ℚ)
  fuzzRatio : String → String → ℚ
  parseDate : String → Option ℚ
  now : ℚ

/-- `compute_semantic_similarity`: `0.0` when the model failed to load or
either text is empty. -/
def computeSemanticSimilarity (ext : Ext) (text1 text2 : String) : ℚ :=
  match ext.stModel with
  | none => 0
  | some f => if text1 = "" ∨ text2 = "" then 0 else f text1 text2

/-- Association-list model of Python `dict.get(k, d)`. -/
def lookupD (m : List (String × ℤ)) (k : String) (d : ℤ) : ℤ :=
  match m.find? (fun p => p.1 == k) with
  | some p => p.2
  | none => d

/- ## Stable descending sort (Python `list.sort(key=…, reverse=True)`) -/

/-- Stable insertion of `x` into a descending list: `x` goes before the first
element whose key is `≤` its own, so earlier-listed elements win ties — the
ordering contract of Python's stable `sort(key=…, reverse=True)`. -/
def insertDesc {α β : Type} [LinearOrder β] (key : α → β) (x : α) : List α → List α
  | [] => [x]
  | y :: ys => if key y ≤ key x then x :: y :: ys else y :: insertDesc key x ys

/-- Stable descending sort by `key`. -/
def sortDesc {α β : Type} [LinearOrder β] (key : α → β) : List α → List α
  | [] => []
  | x :: xs => insertDesc key x (sortDesc key xs)

/- ## filters.py -/

/-- `filter_eligibility`: the code's debug mode skips every check and returns
all jobs. -/
def filterEligibility (jobs : List Job) (user_profile : Profile) : List Job :=
  jobs

/-- The experience trigger keywords `['year', 'yr', 'experience']`. -/
def expKeywords : List String := ["year", "yr", "experience"]

/-- `relaxed_filter_eligibility`'s degree keyword list (seven entries,
including `certification`). -/
def relaxedDegreeKeywords : List String :=
  ["bachelor", "master", "phd", "b.tech", "m.tech", "degree", "certification"]

/-- The single digit characters of the description, as the relaxed filter
collects them: `[int(s) for s in job.get('description', '') if s.isdigit()]`. -/
def relaxedExpNums (description : String) : List ℕ :=
  (description.toList.filter Char.isDigit).map (fun c => c.toNat - 48)

/-- The experience loop of `relaxed_filter_eligibility`. -/
def relaxedExpMatch (job : Job) (user_exp : ℤ) : Bool :=
  expKeywords.foldl
    (fun acc kw =>
      if pyIn kw (lower job.description) || pyIn kw (lower job.requirements) then
        if relaxedExpNums job.description ≠ [] ∧
            (maxOr0 (relaxedExpNums job.description) : ℤ) > user_exp + 1 then
          false
        else acc
      else acc)
    true

/-- The degree loop of `relaxed_filter_eligibility` (requirements field only). -/
def relaxedDegreeMatch (job : Job) (user_degrees : String) : Bool :=
  relaxedDegreeKeywords.foldl
    (fun acc kw =>
      if pyIn kw (lower job.requirements) then
        if ¬ pyIn kw (lower user_degrees) then false else acc
      else acc)
    true

/-- `relaxed_filter_eligibility`. -/
def relaxedFilterEligibility (jobs : List Job) (user_profile : Profile) : List Job :=
  jobs.filter (fun job =>
    relaxedExpMatch job user_profile.min_experience &&
      relaxedDegreeMatch job (joinSp user_profile.education))

/-- The concatenated `requirements + ' ' + description + ' ' + title` text. -/
def jobText (job : Job) : String :=
  job.requirements ++ " " ++ job.description ++ " " ++ job.title

/-- The profile text `' '.join(user_skills + education)`. -/
def userText (u : Profile) : String := joinSp (u.skills ++ u.education)

/-- The fuzzy keyword loop of `filter_skill_match`: `+10` per truthy skill
occurring case-insensitively in the job text. -/
def fuzzyScore (user_skills : List String) (job_text : String) : ℚ :=
  user_skills.foldl
    (fun acc skill =>
      if skill ≠ "" ∧ pyIn (lower skill) (lower job_text) then acc + 10 else acc)
    0

/-- The enrichment step of `filter_skill_match`: stores
`skill_match_pct = round(70*semantic + 30*fuzzy, 2)` on the job. -/
def enrichSkill (ext : Ext) (u : Profile) (job : Job) : SJob :=
  let fuzzy_score := fuzzyScore u.skills (jobText job)
  let semantic_score := computeSemanticSimilarity ext (userText u) (jobText job)
  ⟨job, round2 (70 * semantic_score + 30 * fuzzy_score)⟩

/-- `filter_skill_match`: enrich every job, keep those at or above the
threshold. -/
def filterSkillMatch (ext : Ext) (jobs : List Job) (u : Profile) (threshold : ℚ) :
    List SJob :=
  (jobs.map (enrichSkill ext u)).filter (fun sj => threshold ≤ sj.skill_match_pct)

/-- The applied-jobs removal of `filter_jobs`:
`[j for j in jobs if j.get('url') not in applied_urls]`. -/
def nonApplied (jobs : List Job) (applied_urls : List String) : List Job :=
  jobs.filter (fun j => ¬ applied_urls.contains j.url)

/-- The strict pass of `filter_jobs`: eligibility (a no-op) then skill
filtering at the caller's threshold. -/
def strictStage (ext : Ext) (jobs : List Job) (applied_urls : List String)
    (u : Profile) (threshold : ℚ) : List SJob :=
  filterSkillMatch ext (filterEligibility (nonApplied jobs applied_urls) u) u threshold

/-- The fallback candidate pool: non-applied jobs whose url was not selected
by the strict pass. -/
def relaxedCandidates (ext : Ext) (jobs : List Job) (applied_urls : List String)
    (u : Profile) (threshold : ℚ) : List Job :=
  let filtered_urls := (strictStage ext jobs applied_urls u threshold).map (fun sj => sj.job.url)
  (nonApplied jobs applied_urls).filter (fun j => ¬ filtered_urls.contains j.url)

/-- The fallback pass: relaxed eligibility, then skill filtering at the
lowered threshold 20. -/
def relaxedSkillStage (ext : Ext) (jobs : List Job) (applied_urls : List String)
    (u : Profile) (threshold : ℚ) : List SJob :=
  filterSkillMatch ext
    (relaxedFilterEligibility (relaxedCandidates ext jobs applied_urls u threshold) u) u 20

/-- `filter_jobs` before its final sort: the strict selection, topped up from
the fallback pass when it holds fewer than 10 postings. -/
def filterJobsPreSort (ext : Ext) (jobs : List Job) (applied_urls : List String)
    (u : Profile) (threshold : ℚ) : List SJob :=
  let skill_filtered := strictStage ext jobs applied_urls u threshold
  if skill_filtered.length < 10 then
    skill_filtered ++
      (relaxedSkillStage ext jobs applied_urls u threshold).take (10 - skill_filtered.length)
  else
    skill_filtered

/-- `filter_jobs` (file I/O abstracted into the raw jobs and applied-url
arguments): sort by descending `skill_match_pct` and keep the top 10. -/
def filterJobs (ext : Ext) (jobs : List Job) (applied_urls : List String)
    (u : Profile) (threshold : ℚ) : List SJob :=
  (sortDesc (fun sj => sj.skill_match_pct)
    (filterJobsPreSort ext jobs applied_urls u threshold)).take 10

/- ## evaluate_job_match -/

/-- The strict degree keyword list of `evaluate_job_match` (six entries, no
`certification`). -/
def degreeKeywords : List String := ["bachelor", "master", "phd", "b.tech", "m.tech", "degree"]

/-- `job_degrees`: strict keywords mentioned in the posting text. -/
def jobDegrees (job_posting : String) : List String :=
  degreeKeywords.filter (fun k => pyIn k (lower job_posting))

/-- `user_degrees`: strict keywords mentioned in the resume text. -/
def userDegrees (resume : String) : List String :=
  degreeKeywords.filter (fun k => pyIn k (lower resume))

/-- The education rejection test of `evaluate_job_match`:
`job_degrees and not any(d in user_degrees for d in job_degrees)`. -/
def educationRejects (job_posting resume : String) : Bool :=
  !(jobDegrees job_posting).isEmpty &&
    !(jobDegrees job_posting).any (fun d => (userDegrees resume).contains d)

/-- The strict experience extraction loop: over each trigger keyword present
in the lowered text, re-run the regex findall and keep the maximum number
found (`0` when nothing is ever found). -/
def expRequiredOf (text : String) : ℤ :=
  expKeywords.foldl
    (fun acc kw =>
      if pyIn kw text then
        if findYearNums text.toList ≠ [] then (maxOr0 (findYearNums text.toList) : ℤ)
        else acc
      else acc)
    0

/-- The experience rejection reason f-string. -/
def expReason (exp_required user_exp : ℤ) : String :=
  "Job requires " ++ toString exp_required ++ " years experience, user has " ++
    toString user_exp

/-- `evaluate_job_match`: hard filters in order (experience, education,
location, job type), then the five-part soft score. -/
def evaluateJobMatch (ext : Ext) (user_input : UserInput) (job : Job)
    (company_prestige : List (String × ℤ)) : MatchResult :=
  let resume := user_input.resume
  let requirements := job.requirements
  let description := job.description
  let job_posting := requirements ++ " " ++ description
  let prefs := user_input.user_preferences
  let preferred_titles := prefs.preferred_titles.map lower
  let preferred_locations := prefs.location.map lower
  let user_exp := prefs.experience_years
  let user_job_type := lower prefs.job_type
  let exp_required := expRequiredOf (lower (requirements ++ " " ++ description))
  if exp_required > user_exp + 1 then
    .ineligible (expReason exp_required user_exp)
  else if educationRejects job_posting resume then
    .ineligible "Degree/education mismatch"
  else
    let job_loc := lower job.location
    if ¬(preferred_locations.any (fun loc => pyIn loc job_loc)) ∧ ¬ pyIn "remote" job_loc then
      .ineligible "Location not preferred and not remote"
    else
      let job_type := lower job.work_type
      if user_job_type ≠ "" ∧ ¬ pyIn user_job_type job_type ∧ job_type ≠ "" then
        .ineligible ("Job type mismatch: " ++ job_type)
      else
        let skill_score := pyTrunc (computeSemanticSimilarity ext resume job_posting * 50)
        let job_title := lower job.title
        let title_score :=
          ⌊maxQ0 (preferred_titles.map (fun t => ext.fuzzRatio job_title t)) / 7⌋
        let location_score : ℤ :=
          if preferred_locations.any (fun loc => pyIn loc job_loc) then 10
          else if pyIn "remote" job_loc then 5 else 0
        let recency_score : ℤ :=
          if job.posting_date ≠ "" then
            match ext.parseDate job.posting_date with
            | some dt => if dt ≥ ext.now - 14 then 10 else if dt ≥ ext.now - 30 then 5 else 0
            | none => 0
          else 0
        let company_score := lookupD company_prestige job.company 5
        let match_score := skill_score + title_score + location_score + recency_score +
          company_score
        let comments := String.intercalate ", "
          ((if skill_score ≥ 30 then ["Strong skill match"] else []) ++
           (if title_score ≥ 10 then ["Preferred title"] else []) ++
           (if location_score ≥ 10 then ["Preferred location"]
            else if location_score ≥ 5 then ["Remote option"] else []) ++
           (if recency_score ≥ 10 then ["Recent posting"] else []) ++
           (if company_score ≥ 8 then ["Prestigious company"] else []))
        .eligible match_score
          ⟨skill_score, title_score, location_score, recency_score, company_score⟩ comments

/-- `filter_eligible_jobs`: keep the eligible postings, each merged with its
result dictionary. -/
def filterEligibleJobs (ext : Ext) (user_input : UserInput) (jobs : List Job)
    (company_prestige : List (String × ℤ)) : List RJob :=
  jobs.filterMap (fun job =>
    match evaluateJobMatch ext user_input job company_prestige with
    | .eligible ms bd cm => some ⟨job, ms, bd, cm⟩
    | .ineligible _ => none)

/-- `filter_and_rank_jobs`: hard filter, keep scores ≥ 40, sort descending by
`match_score`, truncate to 10. -/
def filterAndRankJobs (ext : Ext) (user_input : UserInput) (jobs : List Job)
    (company_prestige : List (String × ℤ)) : List RJob :=
  let eligible_jobs := filterEligibleJobs ext user_input jobs company_prestige
  let ranked := eligible_jobs.filter (fun j => j.match_score ≥ 40)
  (sortDesc (fun j => j.match_score) ranked).take 10

/- ## streamlit_app.py pipeline -/

/-- The dedup loop with its running `seen` set: keep a posting iff its url is
truthy and unseen. -/
def dedupAux : List Job → List String → List Job
  | [], _ => []
  | job :: rest, seen =>
    if job.url ≠ "" ∧ ¬ seen.contains job.url then
      job :: dedupAux rest (job.url :: seen)
    else
      dedupAux rest seen

/-- The `streamlit_app` deduplication of raw jobs by url. -/
def dedupJobs (jobs : List Job) : List Job := dedupAux jobs []

/-- The streamlit "Fetch & Filter" shortlist: dedup then `filter_and_rank_jobs`
(no applied-set filtering happens on this path). -/
def streamlitShortlist (ext : Ext) (user_input : UserInput) (jobsRaw : List Job)
    (company_prestige : List (String × ℤ)) : List RJob :=
  filterAndRankJobs ext user_input (dedupJobs jobsRaw) company_prestige

/-- The streamlit ineligible-with-reasons list over the deduplicated jobs. -/
def streamlitIneligible (ext : Ext) (user_input : UserInput) (jobsRaw : List Job)
    (company_prestige : List (String × ℤ)) : List (Job × String) :=
  (dedupJobs jobsRaw).filterMap (fun job =>
    match evaluateJobMatch ext user_input job company_prestige with
    | .ineligible r => some (job, r)
    | .eligible _ _ _ => none)

/- ## ranker.py -/

/-- Python `s.split(',')[0]`. -/
def splitCommaHead (s : String) : String := ⟨s.toList.takeWhile (fun c => c ≠ ',')⟩

/-- The location loop of `compute_relevance_score`: a full substring match of
a preferred location scores 15 and stops; a match of its part before the
first comma sets the running score to 8 and continues. -/
def locLoop (user_locs : List String) (job_loc : String) (loc_score : ℚ) : ℚ :=
  match user_locs with
  | [] => loc_score
  | loc :: rest =>
    if pyIn loc job_loc then 15
    else if pyIn (splitCommaHead loc) job_loc then locLoop rest job_loc 8
    else locLoop rest job_loc loc_score

/-- The scraper's company name lists (`job_scraper.py`). -/
def GLOBAL_COMPANIES : List String := ["Google", "Microsoft"]

/-- The scraper's Indian company name list (`job_scraper.py`). -/
def INDIAN_COMPANIES : List String := ["TCS", "Infosys"]

/-- `get_company_rank`: weight 10 for the side named in the preference
string, 5 otherwise. -/
def getCompanyRank (user_profile : Profile) : List (String × ℤ) :=
  let pref := user_profile.company_preference
  let global_weight : ℤ := if pyIn "global" (lower pref) then 10 else 5
  let indian_weight : ℤ := if pyIn "indian" (lower pref) then 10 else 5
  GLOBAL_COMPANIES.map (fun c => (c, global_weight)) ++
    INDIAN_COMPANIES.map (fun c => (c, indian_weight))

/-- `compute_relevance_score`, as the enrichment it performs on the job. -/
def computeRelevanceScore (ext : Ext) (sj : SJob) (user_profile : Profile)
    (company_rank : List (String × ℤ)) : RankedJob :=
  let skill_score := sj.skill_match_pct
  let semantic_score :=
    computeSemanticSimilarity ext (userText user_profile) (jobText sj.job) * 100
  let user_locs := user_profile.preferred_locations.map lower
  let job_loc := lower sj.job.location
  let loc_base := locLoop user_locs job_loc 0
  let loc_score := if pyIn "remote" job_loc then max loc_base 5 else loc_base
  let company_score : ℚ := (lookupD company_rank sj.job.company 0 : ℚ)
  let recency_score : ℚ :=
    if sj.job.posting_date ≠ "" then
      match ext.parseDate sj.job.posting_date with
      | some dt => if dt ≥ ext.now - 7 then 5 else 0
      | none => 0
    else 0
  let score := skill_score * (3/10) + semantic_score * (4/10) + loc_score * (15/100) +
    company_score * (1/10) + recency_score * (5/100)
  ⟨sj, round2 score⟩

/-- `rank_jobs` on an already-loaded filtered-jobs list: score every posting,
sort descending by `relevance_score`, keep `top_n`. -/
def rankJobs (ext : Ext) (user_profile : Profile) (jobs : List SJob) (top_n : ℕ) :
    List RankedJob :=
  let company_rank := getCompanyRank user_profile
  let scored := jobs.map (fun j => computeRelevanceScore ext j user_profile company_rank)
  (sortDesc (fun j => j.relevance_score) scored).take top_n

/- ## Lemmas about the stable descending sort -/

theorem mem_insertDesc {α β : Type} [LinearOrder β] (key : α → β) (x b : α)
    (l : List α) : b ∈ insertDesc key x l ↔ b = x ∨ b ∈ l := by
  induction l with
  | nil => simp [insertDesc]
  | cons y ys ih =>
    by_cases hle : key y ≤ key x
    · simp [insertDesc, hle, List.mem_cons]
    · simp only [insertDesc, if_neg hle, List.mem_cons, ih]
      tauto

theorem insertDesc_pairwise {α β : Type} [LinearOrder β] (key : α → β) (x : α)
    (l : List α) (h : l.Pairwise (fun a b => key b ≤ key a)) :
    (insertDesc key x l).Pairwise (fun a b => key b ≤ key a) := by
  induction l with
  | nil => simp [insertDesc]
  | cons y ys ih =>
    rcases List.pairwise_cons.mp h with ⟨hy, hys⟩
    by_cases hle : key y ≤ key x
    · simp only [insertDesc, if_pos hle]
      refine List.pairwise_cons.mpr ⟨?_, h⟩
      intro b hb
      rcases List.mem_cons.mp hb with rfl | hb'
      · exact hle
      · exact le_trans (hy b hb') hle
    · simp only [insertDesc, if_neg hle]
      refine List.pairwise_cons.mpr ⟨?_, ih hys⟩
      intro b hb
      rcases (mem_insertDesc key x b ys).mp hb with rfl | hb'
      · exact le_of_lt (lt_of_not_le hle)
      · exact hy b hb'

theorem sortDesc_pairwise {α β : Type} [LinearOrder β] (key : α → β) (l : List α) :
    (sortDesc key l).Pairwise (fun a b => key b ≤ key a) := by
  induction l with
  | nil => simp [sortDesc]
  | cons x xs ih => exact insertDesc_pairwise key x _ ih

theorem mem_sortDesc {α β : Type} [LinearOrder β] (key : α → β) (b : α) (l : List α) :
    b ∈ sortDesc key l ↔ b ∈ l := by
  induction l with
  | nil => simp [sortDesc]
  | cons x xs ih => simp [sortDesc, mem_insertDesc, ih]

theorem insertDesc_length {α β : Type} [LinearOrder β] (key : α → β) (x : α)
    (l : List α) : (insertDesc key x l).length = l.length + 1 := by
  induction l with
  | nil => simp [insertDesc]
  | cons y ys ih =>
    by_cases hle : key y ≤ key x
    · simp [insertDesc, hle]
    · simp [insertDesc, hle, ih]

theorem sortDesc_length {α β : Type} [LinearOrder β] (key : α → β) (l : List α) :
    (sortDesc key l).length = l.length := by
  induction l with
  | nil => rfl
  | cons x xs ih => simp [sortDesc, insertDesc_length, ih]

theorem insertDesc_filter_key {α β : Type} [LinearOrder β] (key : α → β) (x : α)
    (s : β) (l : List α) :
    (insertDesc key x l).filter (fun a => decide (key a = s)) =
      (if key x = s then [x] else []) ++ l.filter (fun a => decide (key a = s)) := by
  induction l with
  | nil => by_cases hx : key x = s <;> simp [insertDesc, List.filter_cons, hx]
  | cons y ys ih =>
    by_cases hle : key y ≤ key x
    · simp only [insertDesc, if_pos hle]
      by_cases hx : key x = s <;> by_cases hy : key y = s <;>
        simp [List.filter_cons, hx, hy]
    · simp only [insertDesc, if_neg hle]
      have hlt : key x < key y := lt_of_not_le hle
      by_cases hx : key x = s
      · have hy : ¬ key y = s := by
          intro hys
          rw [hx] at hlt
          rw [hys] at hlt
          exact lt_irrefl s hlt
        simp [List.filter_cons, hx, hy, ih]
      · by_cases hy : key y = s <;>
          simp [List.filter_cons, hx, hy, ih]

theorem sortDesc_filter_key {α β : Type} [LinearOrder β] (key : α → β) (s : β)
    (l : List α) :
    (sortDesc key l).filter (fun a => decide (key a = s)) =
      l.filter (fun a => decide (key a = s)) := by
  induction l with
  | nil => rfl
  | cons x xs ih =>
    by_cases hx : key x = s <;>
      simp [sortDesc, insertDesc_filter_key, List.filter_cons, hx, ih]

/-- Truncating a stable descending sort: the surviving equal-key elements are
a subsequence of the input's equal-key elements, in the input's order. -/
theorem take_sortDesc_filter_sublist {α β : Type} [LinearOrder β] (key : α → β)
    (n : ℕ) (s : β) (l : List α) :
    (((sortDesc key l).take n).filter (fun a => decide (key a = s))).Sublist
      (l.filter (fun a => decide (key a = s))) := by
  have h2 := (List.take_sublist n (sortDesc key l)).filter (fun a => decide (key a = s))
  rw [sortDesc_filter_key] at h2
  exact h2

theorem take_sortDesc_pairwise {α β : Type} [LinearOrder β] (key : α → β) (n : ℕ)
    (l : List α) :
    ((sortDesc key l).take n).Pairwise (fun a b => key b ≤ key a) :=
  (sortDesc_pairwise key l).sublist (List.take_sublist n _)

/- ## Concrete fixtures used by witnesses and counterexamples -/

/-- A degraded backend: transformer unavailable, ratio 0, no date parses. -/
def extStub : Ext := ⟨none, fun _ _ => 0, fun _ => none, 0⟩

/- ## C10 -/

/-- C10: `filter_eligibility` returns its input list unchanged for every
input and every profile — it performs no experience, education, location or
job-type check — so in `filter_jobs` the skill-scoring stage receives exactly
the deduplicated-by-applied-set job list, independent of the profile. -/
theorem C10_filter_eligibility_identity (ext : Ext) (jobs : List Job)
    (applied_urls : List String) (u u' : Profile) (threshold : ℚ) :
    filterEligibility jobs u = jobs ∧
      filterEligibility jobs u = filterEligibility jobs u' ∧
      strictStage ext jobs applied_urls u threshold =
        filterSkillMatch ext (nonApplied jobs applied_urls) u threshold :=
  ⟨rfl, rfl, rfl⟩

/- ## C9 -/

/-- C9: scoring is deterministic.  With the embedding backend, fuzzy ratio,
date parser and clock fixed (all explicit in `ext`), two evaluations of the
same posting against the same profile and prestige table return the same
result — hence identical `match_score` and identical `score_breakdown`,
recency sub-score included — and likewise two `compute_relevance_score`
computations agree. -/
theorem C9_scoring_deterministic (ext : Ext) (user_input : UserInput) (job : Job)
    (company_prestige : List (String × ℤ)) (u : Profile)
    (company_rank : List (String × ℤ)) (sj : SJob)
    (r1 r2 : MatchResult) (s1 s2 : RankedJob)
    (h1 : r1 = evaluateJobMatch ext user_input job company_prestige)
    (h2 : r2 = evaluateJobMatch ext user_input job company_prestige)
    (h3 : s1 = computeRelevanceScore ext sj u company_rank)
    (h4 : s2 = computeRelevanceScore ext sj u company_rank) :
    r1 = r2 ∧ s1 = s2 :=
  ⟨h1.trans h2.symm, h3.trans h4.symm⟩

/-- Fixture posting for the determinism witness. -/
def jobC9 : Job := { url := "u9", title := "engineer", location := "remote" }

theorem C9_scoring_deterministic_witness :
    evaluateJobMatch extStub {} jobC9 [] = evaluateJobMatch extStub {} jobC9 [] ∧
      computeRelevanceScore extStub ⟨jobC9, 0⟩ {} [] =
        computeRelevanceScore extStub ⟨jobC9, 0⟩ {} [] :=
  C9_scoring_deterministic extStub {} jobC9 [] {} [] ⟨jobC9, 0⟩ _ _ _ _ rfl rfl rfl rfl

/- ## C3 -/

theorem dedupAux_sublist (jobs : List Job) (seen : List String) :
    (dedupAux jobs seen).Sublist jobs := by
  induction jobs generalizing seen with
  | nil => simp [dedupAux]
  | cons j rest ih =>
    by_cases h : j.url ≠ "" ∧ ¬ seen.contains j.url
    · simp only [dedupAux, if_pos h]
      exact (ih (j.url :: seen)).cons₂ j
    · simp only [dedupAux, if_neg h]
      exact (ih seen).cons j

theorem dedupAux_filter_eq (jobs : List Job) (seen : List String) (u : String)
    (hu : u ≠ "") :
    (dedupAux jobs seen).filter (fun j => decide (j.url = u)) =
      if seen.contains u then []
      else (jobs.filter (fun j => decide (j.url = u))).take 1 := by
  induction jobs generalizing seen with
  | nil => by_cases h : seen.contains u <;> simp [dedupAux, h]
  | cons j rest ih =>
    by_cases hkeep : j.url ≠ "" ∧ ¬ seen.contains j.url
    · simp only [dedupAux, if_pos hkeep]
      by_cases hju : j.url = u
      · have hmem : u ∉ seen := by
          have h2 := hkeep.2
          rw [hju] at h2
          simpa using h2
        simp [List.filter_cons, hju, hmem, ih]
      · have hne : ¬ u = j.url := fun h => hju h.symm
        simp [List.filter_cons, hju, hne, ih]
    · simp only [dedupAux, if_neg hkeep]
      by_cases hju : j.url = u
      · have hmem : u ∈ seen := by
          rcases not_and_or.mp hkeep with he | hc
          · have he' : j.url = "" := not_not.mp (by simpa using he)
            exact absurd (hju.symm.trans he') hu
          · have hc' := not_not.mp hc
            rw [hju] at hc'
            simpa using hc'
        simp [hmem, ih]
      · simp [List.filter_cons, hju, ih]

theorem dedupAux_no_empty (jobs : List Job) (seen : List String) :
    (dedupAux jobs seen).filter (fun j => decide (j.url = "")) = [] := by
  induction jobs generalizing seen with
  | nil => simp [dedupAux]
  | cons j rest ih =>
    by_cases h : j.url ≠ "" ∧ ¬ seen.contains j.url
    · simp only [dedupAux, if_pos h]
      rw [List.filter_cons, if_neg (by simpa using h.1), ih]
    · simp only [dedupAux, if_neg h]
      exact ih seen

/-- C3 amended: the deduplicator returns a subsequence of its input keeping
exactly the first posting per nonempty url, but it DROPS every posting whose
url is missing or empty rather than keeping it (`if url and url not in
seen`). -/
theorem C3_dedup_first_per_url (jobs : List Job) :
    (dedupJobs jobs).Sublist jobs ∧
      (∀ u : String, u ≠ "" →
        (dedupJobs jobs).filter (fun j => decide (j.url = u)) =
          (jobs.filter (fun j => decide (j.url = u))).take 1) ∧
      (dedupJobs jobs).filter (fun j => decide (j.url = "")) = [] := by
  refine ⟨dedupAux_sublist jobs [], fun u hu => ?_, dedupAux_no_empty jobs []⟩
  rw [dedupJobs, dedupAux_filter_eq jobs [] u hu]
  simp

/-- Fixture posting with an identity key, for the dedup witness. -/
def jobC3 : Job := { url := "u3", title := "first" }

/-- Fixture posting sharing `jobC3`'s url. -/
def jobC3' : Job := { url := "u3", title := "second" }

theorem C3_dedup_first_per_url_witness :
    (dedupJobs [jobC3, jobC3']).filter (fun j => decide (j.url = "u3")) =
      ([jobC3, jobC3'].filter (fun j => decide (j.url = "u3"))).take 1 :=
  (C3_dedup_first_per_url [jobC3, jobC3']).2.1 "u3" (by decide)

/-- Fixture posting with no identity key. -/
def jobC3e : Job := { title := "no url" }

/-- C3 counterexample: a posting with an empty url is dropped by the dedup
loop, refuting "every posting with a missing or empty url is kept in the
output". -/
theorem C3_dedup_counterexample :
    jobC3e.url = "" ∧ jobC3e ∉ dedupJobs [jobC3e] := by
  exact ⟨rfl, by decide⟩

/- ## C4 -/

/-- The blend formula exactly as the spec words it (§4.3): `0.7 ×
semantic_similarity × 100 + 0.3 × fuzzy_keyword_score`, with the same
10-points-per-matched-skill fuzzy score. -/
def specBlendScore (ext : Ext) (u : Profile) (job : Job) : ℚ :=
  (7/10) * computeSemanticSimilarity ext (userText u) (jobText job) * 100 +
    (3/10) * fuzzyScore u.skills (jobText job)

/-- The profile skills found case-insensitively in the posting text. -/
def matchedSkills (u : Profile) (job : Job) : List String :=
  u.skills.filter
    (fun skill => decide (skill ≠ "" ∧ pyIn (lower skill) (lower (jobText job)) = true))

theorem fuzzyScore_foldl_count (t : String) (skills : List String) (acc : ℚ) :
    skills.foldl
        (fun acc skill =>
          if skill ≠ "" ∧ pyIn (lower skill) (lower t) then acc + 10 else acc) acc =
      acc + 10 * ((skills.filter
        (fun skill => decide (skill ≠ "" ∧ pyIn (lower skill) (lower t) = true))).length : ℚ) := by
  induction skills generalizing acc with
  | nil => simp
  | cons s rest ih =>
    by_cases h : s ≠ "" ∧ pyIn (lower s) (lower t) = true
    · have hd : (decide (s ≠ "" ∧ pyIn (lower s) (lower t) = true)) = true :=
        decide_eq_true h
      rw [List.foldl_cons, if_pos h, ih, List.filter_cons, if_pos hd,
        List.length_cons]
      push_cast
      ring
    · have hd : (decide (s ≠ "" ∧ pyIn (lower s) (lower t) = true)) = false :=
        decide_eq_false h
      simp only [List.foldl_cons, if_neg h, ih, List.filter_cons, hd]
      simp

theorem fuzzyScore_eq_count (u : Profile) (job : Job) :
    fuzzyScore u.skills (jobText job) = 10 * ((matchedSkills u job).length : ℚ) := by
  rw [fuzzyScore, matchedSkills, fuzzyScore_foldl_count]
  ring

/-- C4 amended: the stored `skill_match_pct` is
`round(70 × semantic + 30 × fuzzy_keyword_score, 2)` with 10 points per
matched skill — the fuzzy term enters with coefficient 30 (300 points per
matched skill), not the 0.3 the claim states. -/
theorem C4_blend_formula_amended (ext : Ext) (u : Profile) (job : Job) :
    (enrichSkill ext u job).skill_match_pct =
      round2 (70 * computeSemanticSimilarity ext (userText u) (jobText job) +
        30 * (10 * ((matchedSkills u job).length : ℚ))) := by
  rw [enrichSkill]
  rw [fuzzyScore_eq_count]

/-- Fixture profile with one skill for the C4 counterexample. -/
def profC4 : Profile := { skills := ["python"] }

/-- Fixture posting whose requirements mention that skill. -/
def jobC4 : Job := { url := "u4", requirements := "python" }

unseal Rat.add Rat.mul Rat.inv Rat.sub in
/-- C4 counterexample: with the backend stubbed to 0 and one matching skill,
the code stores 300 (= 30 × 10) while the claimed formula yields 3
(= 0.3 × 10). -/
theorem C4_blend_formula_counterexample :
    (enrichSkill extStub profC4 jobC4).skill_match_pct = 300 ∧
      specBlendScore extStub profC4 jobC4 = 3 ∧
      (enrichSkill extStub profC4 jobC4).skill_match_pct ≠
        specBlendScore extStub profC4 jobC4 := by
  refine ⟨by decide, by decide, by decide⟩

/- ## C5 -/

/-- The education rule exactly as the spec words it (§4.2 item 2): reject iff
some keyword of its seven-entry list (including `certification`) occurs in
the posting text but not in the education text. -/
def specEducationRejects (job_posting education_text : String) : Bool :=
  ["bachelor", "master", "phd", "b.tech", "m.tech", "degree", "certification"].any
    (fun k => pyIn k (lower job_posting) && ¬ pyIn k (lower education_text))

/-- C5 amended: strict-mode education rejection uses only the six keywords
bachelor, master, phd, b.tech, m.tech, degree (no `certification`), compares
against the resume text, and fires exactly when the posting mentions at least
one keyword and none of the mentioned keywords appears in the resume; a
posting mentioning no keyword always passes. -/
theorem C5_education_rule_amended (job_posting resume : String) :
    (educationRejects job_posting resume = true ↔
      ((∃ k ∈ degreeKeywords, pyIn k (lower job_posting) = true) ∧
        ∀ k ∈ degreeKeywords, pyIn k (lower job_posting) = true →
          pyIn k (lower resume) = false)) ∧
      (jobDegrees job_posting = [] → educationRejects job_posting resume = false) := by
  have hmemJ : ∀ k, k ∈ jobDegrees job_posting ↔
      k ∈ degreeKeywords ∧ pyIn k (lower job_posting) = true := fun k => by
    simp [jobDegrees, List.mem_filter]
  have hmemU : ∀ k, k ∈ userDegrees resume ↔
      k ∈ degreeKeywords ∧ pyIn k (lower resume) = true := fun k => by
    simp [userDegrees, List.mem_filter]
  constructor
  · rw [educationRejects, Bool.and_eq_true, Bool.not_eq_true', Bool.not_eq_true',
      List.isEmpty_eq_false, List.any_eq_false]
    constructor
    · rintro ⟨h1, h2⟩
      obtain ⟨k0, hk0⟩ := List.exists_mem_of_ne_nil _ h1
      have hk0' := (hmemJ k0).mp hk0
      refine ⟨⟨k0, hk0'.1, hk0'.2⟩, ?_⟩
      intro k hk hkj
      have hkJ : k ∈ jobDegrees job_posting := (hmemJ k).mpr ⟨hk, hkj⟩
      have hnc := h2 k hkJ
      have hnm : k ∉ userDegrees resume := by simpa using hnc
      cases hb : pyIn k (lower resume) with
      | false => rfl
      | true => exact absurd ((hmemU k).mpr ⟨hk, hb⟩) hnm
    · rintro ⟨⟨k0, hk0, hkj0⟩, hall⟩
      constructor
      · intro hnil
        have hmem : k0 ∈ jobDegrees job_posting := (hmemJ k0).mpr ⟨hk0, hkj0⟩
        rw [hnil] at hmem
        exact absurd hmem (List.not_mem_nil k0)
      · intro d hd
        have hd' := (hmemJ d).mp hd
        have hf := hall d hd'.1 hd'.2
        intro hc
        have hm : d ∈ userDegrees resume := by simpa using hc
        have hr := ((hmemU d).mp hm).2
        rw [hf] at hr
        exact Bool.false_ne_true hr
  · intro h
    rw [educationRejects, h]
    simp

theorem C5_education_rule_amended_witness :
    educationRejects "no keyword at all" "" = false :=
  (C5_education_rule_amended "no keyword at all" "").2 (by decide)

/-- Fixture posting for the C5 counterexample: it mentions `certification`
(and, per the six-keyword strict list, no degree keyword at all). -/
def jobC5 : Job := { url := "u5", requirements := "certification required", location := "remote" }

/-- Fixture user (empty resume, no preferences) for the C5 counterexample. -/
def userC5 : UserInput := {}

unseal Rat.add Rat.mul Rat.inv Rat.sub in
/-- C5 counterexample: the spec's rule fires on `certification` absent from
the education/resume text, but strict evaluation does not reject — the
posting comes back fully eligible. -/
theorem C5_education_rule_counterexample :
    specEducationRejects (jobC5.requirements ++ " " ++ jobC5.description)
        userC5.resume = true ∧
      educationRejects (jobC5.requirements ++ " " ++ jobC5.description)
        userC5.resume = false ∧
      evaluateJobMatch extStub userC5 jobC5 [] =
        .eligible 10 ⟨0, 0, 5, 0, 5⟩ "Remote option" := by
  refine ⟨by decide, by decide, by decide⟩

/- ## C6 -/

/-- A job with altered location and work-type fields, the dimensions relaxed
mode is supposed to ignore. -/
def withLocType (l w : String) (j : Job) : Job := { j with location := l, work_type := w }

theorem digit_char_le (c : Char) (h : c.isDigit = true) : c.toNat - 48 ≤ 9 := by
  have h2 : c.toNat ≤ 57 := by
    simp [Char.isDigit] at h
    exact h.2
  omega

theorem foldl_max_le (l : List ℕ) (a n : ℕ) (ha : a ≤ n) (h : ∀ x ∈ l, x ≤ n) :
    l.foldl max a ≤ n := by
  induction l generalizing a with
  | nil => exact ha
  | cons x rest ih =>
    exact ih (max a x) (max_le ha (h x (List.mem_cons_self x rest)))
      (fun y hy => h y (List.mem_cons_of_mem x hy))

/-- C6 amended: relaxed mode does evaluate only experience and education —
its verdict is invariant under arbitrary changes to the location and
work-type fields — but its number extraction is NOT the strict filter's: it
takes the maximum over the single digit characters of the description (hence
never exceeds 9), while strict mode takes the maximum regex-extracted
multi-digit number adjacent to `year`/`yr`. -/
theorem C6_relaxed_dimensions_amended (jobs : List Job) (u : Profile) (l w : String) :
    relaxedFilterEligibility (jobs.map (withLocType l w)) u =
      (relaxedFilterEligibility jobs u).map (withLocType l w) ∧
      ∀ d : String, (maxOr0 (relaxedExpNums d) : ℤ) ≤ 9 := by
  constructor
  · rw [relaxedFilterEligibility, relaxedFilterEligibility, List.filter_map]
    rfl
  · intro d
    have hb : maxOr0 (relaxedExpNums d) ≤ 9 := by
      rw [maxOr0]
      refine foldl_max_le _ 0 9 (Nat.zero_le 9) ?_
      intro x hx
      rw [relaxedExpNums] at hx
      rcases List.mem_map.mp hx with ⟨c, hc, rfl⟩
      exact digit_char_le c (List.mem_filter.mp hc).2
    exact_mod_cast hb

/-- Fixture posting for the C6 counterexample: the description asks for 10
years of experience. -/
def jobC6 : Job := { url := "u6", description := "needs 10 years experience" }

/-- C6 counterexample: on "needs 10 years experience" the relaxed filter's
extraction yields 1 (maximum single digit character) while the strict
filter's regex yields 10, so the two heuristics disagree; behaviorally, the
relaxed filter admits the posting for a zero-experience profile while strict
evaluation rejects it. -/
theorem C6_same_extraction_counterexample :
    (maxOr0 (relaxedExpNums jobC6.description) : ℤ) = 1 ∧
      expRequiredOf (lower (jobC6.requirements ++ " " ++ jobC6.description)) = 10 ∧
      relaxedFilterEligibility [jobC6] {} = [jobC6] ∧
      evaluateJobMatch extStub {} jobC6 [] =
        .ineligible "Job requires 10 years experience, user has 0" := by
  refine ⟨by decide, by decide, by decide, by decide⟩

/- ## C7 -/

/-- Scenario A's profile: two years of experience. -/
def userC7 : UserInput := { user_preferences := { experience_years := 2 } }

/-- Scenario A's posting, with a location that passes the remaining gates. -/
def jobC7 : Job := { url := "u7", requirements := "5+ years experience required", location := "remote" }

/-- The digit-adjacent variant of Scenario A's posting. -/
def jobC7' : Job := { url := "u7b", requirements := "5 years experience required", location := "remote" }

unseal Rat.add Rat.mul Rat.inv Rat.sub in
/-- C7 counterexample: on Scenario A's text the regex `(\d+)\s*(?:year|yr)`
matches nothing — the `+` of "5+" separates the digit from "years" — so the
extracted requirement is 0, the experience gate passes, and strict evaluation
returns eligible instead of the claimed experience rejection. -/
theorem C7_scenarioA_counterexample :
    findYearNums (lower (jobC7.requirements ++ " " ++ jobC7.description)).toList = [] ∧
      expRequiredOf (lower (jobC7.requirements ++ " " ++ jobC7.description)) = 0 ∧
      evaluateJobMatch extStub userC7 jobC7 [] =
        .eligible 10 ⟨0, 0, 5, 0, 5⟩ "Remote option" := by
  refine ⟨by decide, by decide, by decide⟩

unseal Rat.add Rat.mul Rat.inv Rat.sub in
/-- C7 amended: with "5+ years experience required" the experience gate
passes (no number is digit-adjacent to a year keyword) and the posting is
eligible; with the adjacent form "5 years experience required" strict
evaluation rejects with the required-versus-available reason. -/
theorem C7_scenarioA_amended :
    evaluateJobMatch extStub userC7 jobC7 [] =
        .eligible 10 ⟨0, 0, 5, 0, 5⟩ "Remote option" ∧
      evaluateJobMatch extStub userC7 jobC7' [] =
        .ineligible "Job requires 5 years experience, user has 2" := by
  refine ⟨by decide, by decide⟩

/- ## C2 -/

theorem mem_filterSkillMatch {ext : Ext} {u : Profile} {threshold : ℚ}
    {jobs : List Job} {sj : SJob}
    (h : sj ∈ filterSkillMatch ext jobs u threshold) : sj.job ∈ jobs := by
  rw [filterSkillMatch] at h
  rcases List.mem_map.mp (List.mem_of_mem_filter h) with ⟨j, hj, rfl⟩
  exact hj

theorem mem_nonApplied {jobs : List Job} {applied_urls : List String} {j : Job}
    (h : j ∈ nonApplied jobs applied_urls) : applied_urls.contains j.url = false := by
  rw [nonApplied] at h
  have h2 := (List.mem_filter.mp h).2
  simpa using h2

/-- C2 amended: in the `filter_jobs` pipeline the applied-set removal comes
before every stage, so neither the eligibility/scoring input, nor the
fallback candidate pool, nor the final output contains a posting whose url is
in the applied set.  (The streamlit pipeline has no such removal — see the
counterexample.) -/
theorem C2_applied_never_reappears (ext : Ext) (jobs : List Job)
    (applied_urls : List String) (u : Profile) (threshold : ℚ) :
    (∀ j ∈ filterEligibility (nonApplied jobs applied_urls) u,
        applied_urls.contains j.url = false) ∧
      (∀ j ∈ relaxedCandidates ext jobs applied_urls u threshold,
        applied_urls.contains j.url = false) ∧
      (∀ sj ∈ filterJobs ext jobs applied_urls u threshold,
        applied_urls.contains sj.job.url = false) := by
  refine ⟨fun j hj => mem_nonApplied hj, fun j hj => ?_, fun sj hsj => ?_⟩
  · rw [relaxedCandidates] at hj
    exact mem_nonApplied (List.mem_of_mem_filter hj)
  · rw [filterJobs] at hsj
    have h1 : sj ∈ sortDesc (fun sj => sj.skill_match_pct)
        (filterJobsPreSort ext jobs applied_urls u threshold) :=
      (List.take_sublist 10 _).subset hsj
    have h2 : sj ∈ filterJobsPreSort ext jobs applied_urls u threshold :=
      (mem_sortDesc _ sj _).mp h1
    rw [filterJobsPreSort] at h2
    by_cases hlen : (strictStage ext jobs applied_urls u threshold).length < 10
    · rw [if_pos hlen] at h2
      rcases List.mem_append.mp h2 with hs | hr
      · exact mem_nonApplied (mem_filterSkillMatch hs)
      · have hr2 : sj ∈ relaxedSkillStage ext jobs applied_urls u threshold :=
          (List.take_sublist _ _).subset hr
        have hj : sj.job ∈ relaxedFilterEligibility
            (relaxedCandidates ext jobs applied_urls u threshold) u :=
          mem_filterSkillMatch hr2
        have hj2 : sj.job ∈ relaxedCandidates ext jobs applied_urls u threshold := by
          rw [relaxedFilterEligibility] at hj
          exact List.mem_of_mem_filter hj
        rw [relaxedCandidates] at hj2
        exact mem_nonApplied (List.mem_of_mem_filter hj2)
    · rw [if_neg hlen] at h2
      exact mem_nonApplied (mem_filterSkillMatch h2)

/-- Fixture posting for the C2 witness: its url is not applied. -/
def jobC2w : Job := { url := "a" }

unseal Rat.add Rat.mul Rat.inv Rat.sub in
theorem C2_applied_never_reappears_witness :
    (["b"] : List String).contains ((⟨jobC2w, 0⟩ : SJob)).job.url = false :=
  (C2_applied_never_reappears extStub [jobC2w] ["b"] {} 0).2.2 ⟨jobC2w, 0⟩ (by decide)

/-- Fixture posting whose url is already in the applied set. -/
def jobC2 : Job := { url := "u" }

/-- Fixture user whose location preference makes `jobC2` ineligible. -/
def userC2 : UserInput := { user_preferences := { location := ["x"] } }

/-- The applied identity set containing `jobC2`'s url. -/
def appliedC2 : List String := ["u"]

unseal Rat.add Rat.mul Rat.inv Rat.sub in
/-- C2 counterexample: the streamlit pipeline performs no applied-set
filtering, so a posting whose url is in the applied set still flows through
evaluation and appears, with its rejection reason, in the
ineligible-with-reasons list. -/
theorem C2_applied_never_reappears_counterexample :
    appliedC2.contains jobC2.url = true ∧
      streamlitIneligible extStub userC2 [jobC2] [] =
        [(jobC2, "Location not preferred and not remote")] := by
  refine ⟨by decide, by decide⟩

/- ## C8 -/

/-- C8 amended: when the strict pass is under quota, the fallback fills the
shortlist to exactly 10 provided enough candidates pass BOTH relaxed
eligibility and the lowered skill threshold 20 (the `relaxedSkillStage`);
relaxed eligibility alone does not suffice — see the counterexample. -/
theorem C8_fallback_fills_quota (ext : Ext) (jobs : List Job)
    (applied_urls : List String) (u : Profile) (threshold : ℚ)
    (h1 : (strictStage ext jobs applied_urls u threshold).length < 10)
    (h2 : 10 - (strictStage ext jobs applied_urls u threshold).length ≤
      (relaxedSkillStage ext jobs applied_urls u threshold).length) :
    (filterJobs ext jobs applied_urls u threshold).length = 10 := by
  have hpre : (filterJobsPreSort ext jobs applied_urls u threshold).length = 10 := by
    rw [filterJobsPreSort, if_pos h1, List.length_append, List.length_take]
    omega
  rw [filterJobs, List.length_take, sortDesc_length, hpre]
  exact Nat.min_self 10

/-- Fixture posting with only a url, for the quota fixtures. -/
def mkJobU (u : String) : Job := { url := u }

/-- Ten url-distinct but otherwise empty postings. -/
def jobsC8 : List Job :=
  [mkJobU "1", mkJobU "2", mkJobU "3", mkJobU "4", mkJobU "5",
   mkJobU "6", mkJobU "7", mkJobU "8", mkJobU "9", mkJobU "10"]

/-- A backend whose similarity is constantly 3/7, so every posting scores
round(70 × 3/7, 2) = 30: below the strict threshold 40, above the fallback
threshold 20. -/
def extC8 : Ext := ⟨some (fun _ _ => 3/7), fun _ _ => 0, fun _ => none, 0⟩

/-- A profile with one (unmatched) skill so the profile text is nonempty. -/
def profC8 : Profile := { skills := ["x"] }

unseal Rat.add Rat.mul Rat.inv Rat.sub in
theorem C8_fallback_fills_quota_witness :
    (filterJobs extC8 jobsC8 [] profC8 40).length = 10 :=
  C8_fallback_fills_quota extC8 jobsC8 [] profC8 40 (by decide) (by decide)

unseal Rat.add Rat.mul Rat.inv Rat.sub in
/-- C8 counterexample: with the backend degraded every posting scores 0, so
all ten postings are relaxed-ELIGIBLE (at least quota many) while the strict
pass is under quota — yet the final shortlist is empty, not 10, because the
fallback also demands the lowered skill threshold 20. -/
theorem C8_fallback_fills_quota_counterexample :
    (strictStage extStub jobsC8 [] {} 40).length < 10 ∧
      10 ≤ (relaxedFilterEligibility (relaxedCandidates extStub jobsC8 [] {} 40) {}).length ∧
      (filterJobs extStub jobsC8 [] {} 40).length = 0 := by
  refine ⟨by decide, by decide, by decide⟩

/- ## C1 -/

theorem strictStage_pct_ge (ext : Ext) (jobs : List Job)
    (applied_urls : List String) (u : Profile) (threshold : ℚ) :
    ∀ sj ∈ strictStage ext jobs applied_urls u threshold,
      threshold ≤ sj.skill_match_pct := by
  intro sj hsj
  rw [strictStage, filterSkillMatch] at hsj
  have h2 := (List.mem_filter.mp hsj).2
  simpa using h2

/-- A fallback-stage posting always scored below the strict threshold: had it
scored at or above it, it would have been selected by the strict pass and its
url would have been excluded from the candidate pool. -/
theorem relaxedSkillStage_pct_lt (ext : Ext) (jobs : List Job)
    (applied_urls : List String) (u : Profile) (threshold : ℚ) :
    ∀ sj ∈ relaxedSkillStage ext jobs applied_urls u threshold,
      sj.skill_match_pct < threshold := by
  intro sj hsj
  rw [relaxedSkillStage, filterSkillMatch] at hsj
  rcases List.mem_map.mp (List.mem_of_mem_filter hsj) with ⟨j, hj, rfl⟩
  have hj2 : j ∈ relaxedCandidates ext jobs applied_urls u threshold := by
    rw [relaxedFilterEligibility] at hj
    exact List.mem_of_mem_filter hj
  rw [relaxedCandidates] at hj2
  have hj3 := List.mem_filter.mp hj2
  by_contra hge
  push_neg at hge
  have hmem : enrichSkill ext u j ∈ strictStage ext jobs applied_urls u threshold := by
    rw [strictStage, filterSkillMatch]
    exact List.mem_filter.mpr ⟨List.mem_map.mpr ⟨j, hj3.1, rfl⟩, by simpa using hge⟩
  have hurl : j.url ∈ (strictStage ext jobs applied_urls u threshold).map
      (fun sj => sj.job.url) :=
    List.mem_map.mpr ⟨enrichSkill ext u j, hmem, rfl⟩
  exact (of_decide_eq_true hj3.2) (by simpa using hurl)

/-- The pre-sort list of `filter_jobs` keeps each score class as a
subsequence of the input-ordered scored list: strict selections score at or
above the threshold, fallback fillers strictly below, so a score class never
mixes the two segments. -/
theorem filterJobsPreSort_filter_sublist (ext : Ext) (jobs : List Job)
    (applied_urls : List String) (u : Profile) (threshold : ℚ) (s : ℚ) :
    ((filterJobsPreSort ext jobs applied_urls u threshold).filter
        (fun sj => decide (sj.skill_match_pct = s))).Sublist
      (((nonApplied jobs applied_urls).map (enrichSkill ext u)).filter
        (fun sj => decide (sj.skill_match_pct = s))) := by
  have hstrict : strictStage ext jobs applied_urls u threshold =
      ((nonApplied jobs applied_urls).map (enrichSkill ext u)).filter
        (fun sj => decide (threshold ≤ sj.skill_match_pct)) := rfl
  rw [filterJobsPreSort]
  by_cases hlen : (strictStage ext jobs applied_urls u threshold).length < 10
  · rw [if_pos hlen, List.filter_append]
    by_cases hs : threshold ≤ s
    · have hb : (((relaxedSkillStage ext jobs applied_urls u threshold).take
          (10 - (strictStage ext jobs applied_urls u threshold).length)).filter
          (fun sj => decide (sj.skill_match_pct = s))) = [] := by
        rw [List.filter_eq_nil_iff]
        intro sj hsj hdec
        have hlt := relaxedSkillStage_pct_lt ext jobs applied_urls u threshold sj
          ((List.take_sublist _ _).subset hsj)
        rw [of_decide_eq_true hdec] at hlt
        exact absurd hs (not_le_of_lt hlt)
      rw [hb, List.append_nil, hstrict]
      exact List.Sublist.filter _ (List.filter_sublist _)
    · have ha : ((strictStage ext jobs applied_urls u threshold).filter
          (fun sj => decide (sj.skill_match_pct = s))) = [] := by
        rw [List.filter_eq_nil_iff]
        intro sj hsj hdec
        have hge := strictStage_pct_ge ext jobs applied_urls u threshold sj hsj
        rw [of_decide_eq_true hdec] at hge
        exact hs hge
      rw [ha, List.nil_append]
      have hchain : (((relaxedSkillStage ext jobs applied_urls u threshold).take
          (10 - (strictStage ext jobs applied_urls u threshold).length))).Sublist
          ((nonApplied jobs applied_urls).map (enrichSkill ext u)) := by
        refine (List.take_sublist _ _).trans ?_
        rw [relaxedSkillStage, filterSkillMatch]
        refine (List.filter_sublist _).trans (List.Sublist.map _ ?_)
        rw [relaxedFilterEligibility, relaxedCandidates]
        exact (List.filter_sublist _).trans (List.filter_sublist _)
      exact List.Sublist.filter _ hchain
  · rw [if_neg hlen, hstrict]
    exact List.Sublist.filter _ (List.filter_sublist _)

/-- C1: each ranking pipeline — `filter_and_rank_jobs`, `filter_jobs` and
`rank_jobs` (quota 10) — returns at most 10 postings, sorted by descending
composite score, with equal-score postings forming a subsequence of the
pre-sort, input-ordered scored list (Python's sort is stable, so ties keep
their original relative order). -/
theorem C1_pipelines_bounded_sorted_stable (ext : Ext) (user_input : UserInput)
    (jobs : List Job) (company_prestige : List (String × ℤ))
    (applied_urls : List String) (u : Profile) (threshold : ℚ)
    (sjobs : List SJob) :
    ((filterAndRankJobs ext user_input jobs company_prestige).length ≤ 10 ∧
      (filterAndRankJobs ext user_input jobs company_prestige).Pairwise
        (fun a b => b.match_score ≤ a.match_score) ∧
      ∀ s : ℤ, (((filterAndRankJobs ext user_input jobs company_prestige).filter
          (fun j => decide (j.match_score = s)))).Sublist
        ((filterEligibleJobs ext user_input jobs company_prestige).filter
          (fun j => decide (j.match_score = s)))) ∧
    ((filterJobs ext jobs applied_urls u threshold).length ≤ 10 ∧
      (filterJobs ext jobs applied_urls u threshold).Pairwise
        (fun a b => b.skill_match_pct ≤ a.skill_match_pct) ∧
      ∀ s : ℚ, (((filterJobs ext jobs applied_urls u threshold).filter
          (fun sj => decide (sj.skill_match_pct = s)))).Sublist
        (((nonApplied jobs applied_urls).map (enrichSkill ext u)).filter
          (fun sj => decide (sj.skill_match_pct = s)))) ∧
    ((rankJobs ext u sjobs 10).length ≤ 10 ∧
      (rankJobs ext u sjobs 10).Pairwise
        (fun a b => b.relevance_score ≤ a.relevance_score) ∧
      ∀ s : ℚ, (((rankJobs ext u sjobs 10).filter
          (fun j => decide (j.relevance_score = s)))).Sublist
        ((sjobs.map (fun j => computeRelevanceScore ext j u (getCompanyRank u))).filter
          (fun j => decide (j.relevance_score = s)))) := by
  refine ⟨⟨?_, ?_, ?_⟩, ⟨?_, ?_, ?_⟩, ⟨?_, ?_, ?_⟩⟩
  · exact List.length_take_le 10 _
  · exact take_sortDesc_pairwise (fun j : RJob => j.match_score) 10 _
  · intro s
    refine (take_sortDesc_filter_sublist (fun j : RJob => j.match_score) 10 s _).trans ?_
    exact List.Sublist.filter _ (List.filter_sublist _)
  · exact List.length_take_le 10 _
  · exact take_sortDesc_pairwise (fun sj : SJob => sj.skill_match_pct) 10 _
  · intro s
    refine (take_sortDesc_filter_sublist (fun sj : SJob => sj.skill_match_pct) 10 s _).trans ?_
    exact filterJobsPreSort_filter_sublist ext jobs applied_urls u threshold s
  · exact List.length_take_le 10 _
  · exact take_sortDesc_pairwise (fun j : RankedJob => j.relevance_score) 10 _
  · intro s
    exact take_sortDesc_filter_sublist (fun j : RankedJob => j.relevance_score) 10 s _

end Talynix
